import Mathlib

/-!
# Verification of the ciccio-s core: thread pool and layout-polymorphic SU(3) fields

Shallow embedding of the core of the `ciccio-s` repository:

* `src/threads/pool.hpp` — the spin-wait thread pool (`loopSplit`,
  `parallel`, `poolLoop`, the controller/worker hand-off protocol);
* `src/dataTypes/su3Field.hpp` — the three field layouts
  (`CpuSU3Field`, `SimdSU3Field`, `GpuSU3Field`), their index
  functions, constructors, copy constructors, destructors, and the
  `deepCopy` conversion matrix.

Machine integers of the source are modelled as `Nat` (all the
quantities involved — volumes, indices, counters — are non-negative
and far from overflow in every use of interest).  Buffers are
modelled as total functions from addresses to values; the fatal
error macro `CRASHER` is modelled as an `Except.error` result.
-/

namespace Ciccios

/-- Number of colours: `NCOL = 3` (the fields are 3×3 complex matrices,
as fixed throughout the repository). -/
def NCOL : Nat := 3

/-! ## Index functions (su3Field.hpp)

Each layout addresses the element `(site, col1, col2, reIm)` of its
buffer with its own stride scheme. -/

/-- `CpuSU3Field::index` (su3Field.hpp:122-126):
`reim+2*(icol2+NCOL*(icol1+NCOL*iSite))`. -/
def cpuIndex (iSite icol1 icol2 reim : Nat) : Nat :=
  reim + 2 * (icol2 + NCOL * (icol1 + NCOL * iSite))

/-- `SimdSU3Field::index` (su3Field.hpp:248-252):
`reim+2*(icol2+NCOL*(icol1+NCOL*iFusedSite))`; the unit addressed is a
whole SIMD vector of `laneWidth` lanes. -/
def simdIndex (iFusedSite icol1 icol2 reim : Nat) : Nat :=
  reim + 2 * (icol2 + NCOL * (icol1 + NCOL * iFusedSite))

/-- `GpuSU3Field::index` (su3Field.hpp:451-455):
`reim+2*(iSite+vol*(icol2+NCOL*icol1))`. -/
def gpuIndex (vol iSite icol1 icol2 reim : Nat) : Nat :=
  reim + 2 * (iSite + vol * (icol2 + NCOL * icol1))

/-! ## Constructor allocation requests (su3Field.hpp)

Each constructor computes the buffer size it requests from the memory
manager by evaluating the index function just past the last element. -/

/-- Size requested by `CpuSU3Field::CpuSU3Field` (su3Field.hpp:137-144):
`index(vol,0,0,0)` fundamental elements. -/
def cpuAllocSize (vol : Nat) : Nat :=
  cpuIndex vol 0 0 0

/-- Size requested by `SimdSU3Field::SimdSU3Field` (su3Field.hpp:283-290):
`index(fusedVol,0,0,0)` SIMD vectors. -/
def simdAllocSize (fusedVol : Nat) : Nat :=
  simdIndex fusedVol 0 0 0

/-- Size requested by `GpuSU3Field::GpuSU3Field` (su3Field.hpp:466-473):
`index(0,NCOL,0,0)` fundamental elements. -/
def gpuAllocSize (vol : Nat) : Nat :=
  gpuIndex vol 0 NCOL 0 0

/-! ## loopSplit (pool.hpp:226-250)

`loopSplit(beg, end, f)` dispatches, to each worker `threadId`, the
chunk computed by the lambda at pool.hpp:233-248:

    threadLoad = (end-beg+nPieces-1)/nPieces
    threadBeg  = threadLoad*threadId
    threadEnd  = min(end, threadBeg+threadLoad)
    for (i = threadBeg; i < threadEnd; i++) f(threadId, i)

Note that `threadBeg` is `threadLoad*threadId`, not offset by `beg`. -/

/-- `threadLoad` of pool.hpp:236-237. -/
def threadLoad (b e n : Nat) : Nat :=
  (e - b + n - 1) / n

/-- `threadBeg` of pool.hpp:240-241. -/
def threadBeg (b e n tid : Nat) : Nat :=
  threadLoad b e n * tid

/-- `threadEnd` of pool.hpp:244-245. -/
def threadEnd (b e n tid : Nat) : Nat :=
  min e (threadBeg b e n tid + threadLoad b e n)

/-- Indices visited by worker `tid` in `loopSplit`'s chunk loop
(pool.hpp:247-248), in visitation order. -/
def chunkIndices (b e n tid : Nat) : List Nat :=
  List.range' (threadBeg b e n tid) (threadEnd b e n tid - threadBeg b e n tid)

/-- All indices visited across the `n` workers of a `loopSplit`
dispatch, worker by worker. -/
def loopSplitIndices (b e n : Nat) : List Nat :=
  (List.range n).flatMap (chunkIndices b e n)

/-! ## Memory model

Scalar (`Fund*`) buffers live in a flat host address space `Mem α`;
SIMD (`Simd<Fund>*`) buffers live in a separate space `SMem α` whose
cells are addressed by (vector address, lane) — in the source they are
distinct allocation types, so the two spaces never alias.  A field is
a base address plus an extent into its space. -/

/-- Flat scalar memory: everything a `Fund*` can reach. -/
def Mem (α : Type) : Type := Nat → α

/-- SIMD memory: a `Simd<Fund>*` cell is one lane of one vector,
addressed by the pair (vector index, lane index). -/
def SMem (α : Type) : Type := Nat × Nat → α

/-- A `CpuSU3Field`'s view of scalar memory: volume and base address
of its `data` pointer. -/
structure CpuField where
  vol : Nat
  base : Nat

/-- A `GpuSU3Field`'s view of scalar memory. -/
structure GpuField where
  vol : Nat
  base : Nat

/-- A `SimdSU3Field`'s view of SIMD memory. -/
structure SimdField where
  fusedVol : Nat
  base : Nat

/-- `CpuSU3Field::operator()` (su3Field.hpp:129-133): read through the
index function. -/
def CpuField.read (f : CpuField) (m : Mem α) (iSite icol1 icol2 reim : Nat) : α :=
  m (f.base + cpuIndex iSite icol1 icol2 reim)

/-- `GpuSU3Field::operator()` (su3Field.hpp:458-462). -/
def GpuField.read (f : GpuField) (m : Mem α) (iSite icol1 icol2 reim : Nat) : α :=
  m (f.base + gpuIndex f.vol iSite icol1 icol2 reim)

/-- `SimdSU3Field::operator()[lane]` (su3Field.hpp:255-259 plus lane
subscript): read one lane of one vector. -/
def SimdField.read (f : SimdField) (m : SMem α) (iFusedSite icol1 icol2 reim lane : Nat) : α :=
  m (f.base + simdIndex iFusedSite icol1 icol2 reim, lane)

/-! ## Sequential copy loops

Every element-wise `deepCopy` overload is a nest of `for` loops whose
body performs one assignment; `copyLoop` folds such a nest over its
iteration domain in source order.  The assigned value may read the
memory as already modified by earlier iterations (exactly as the C++
does when destination and source alias). -/

/-- Run a loop nest over iteration domain `dom` (in order); iteration
`i` assigns value `val i mem` (read from the current memory) to
address `addr i`. -/
def copyLoop {ι κ α : Type} [DecidableEq κ] (dom : List ι) (addr : ι → κ)
    (val : ι → (κ → α) → α) (m : κ → α) : κ → α :=
  dom.foldl (fun mem i => Function.update mem (addr i) (val i mem)) m

/-- Colour and reIm loop nest `(icol1, icol2, reim)` in source order:
`ic1` outermost, then `ic2`, then `ri`. -/
def colDom : List (Nat × Nat × Nat) :=
  (List.range NCOL) ×ˢ (List.range NCOL) ×ˢ (List.range 2)

/-- Site loop around the colour nest, sites `0 ≤ iSite < nSites`. -/
def siteColDom (nSites : Nat) : List (Nat × Nat × Nat × Nat) :=
  (List.range nSites) ×ˢ colDom

/-! ## The deepCopy conversion matrix (su3Field.hpp:500-701)

Element-wise overloads, each transcribed loop nest by loop nest.
`L` stands for the compile-time constant `simdLength<Fund>`.  The
cross-layout host overloads drive their site loop through
`sitesLoop`, i.e. through `ThreadPool::loopSplit(0, vol, ...)`; the
sites they touch are therefore `loopSplitIndices 0 vol nThreads`,
here serialized worker by worker (workers write disjoint cells, so
the final memory does not depend on the interleaving). -/

/-- `deepCopy(SimdSU3Field&, const CpuSU3Field&)` (su3Field.hpp:503-522):
for `iSite < res.fusedVol*L`, lane `iSite%L` of vector element
`index(iSite/L, ic1, ic2, ri)` receives `oth(iSite, ic1, ic2, ri)`. -/
def deepCopySimdFromCpu {α : Type} (L : Nat) (res : SimdField) (sm : SMem α)
    (oth : CpuField) (m : Mem α) : SMem α :=
  copyLoop (siteColDom (res.fusedVol * L))
    (fun (iSite, ic1, ic2, ri) =>
      (res.base + simdIndex (iSite / L) ic1 ic2 ri, iSite % L))
    (fun (iSite, ic1, ic2, ri) _ => oth.read m iSite ic1 ic2 ri)
    sm

/-- `deepCopy(CpuSU3Field&, const CpuSU3Field&)` (su3Field.hpp:524-538):
plain element-wise copy inside scalar memory. -/
def deepCopyCpuFromCpu {α : Type} (res oth : CpuField) (m : Mem α) : Mem α :=
  copyLoop (siteColDom res.vol)
    (fun (iSite, ic1, ic2, ri) => res.base + cpuIndex iSite ic1 ic2 ri)
    (fun (iSite, ic1, ic2, ri) mem => mem (oth.base + cpuIndex iSite ic1 ic2 ri))
    m

/-- `deepCopy(CpuSU3Field&, const SimdSU3Field&)` (su3Field.hpp:540-557):
loop nest `iFusedSite, ic1, ic2, ri, iSimdComp` (lane innermost), the
scalar site being `iSimdComp + L*iFusedSite`. -/
def deepCopyCpuFromSimd {α : Type} (L : Nat) (res : CpuField) (m : Mem α)
    (oth : SimdField) (sm : SMem α) : Mem α :=
  copyLoop ((List.range oth.fusedVol) ×ˢ (List.range NCOL) ×ˢ (List.range NCOL) ×ˢ
      (List.range 2) ×ˢ (List.range L))
    (fun (iFusedSite, ic1, ic2, ri, iSimdComp) =>
      res.base + cpuIndex (iSimdComp + L * iFusedSite) ic1 ic2 ri)
    (fun (iFusedSite, ic1, ic2, ri, iSimdComp) _ =>
      oth.read sm iFusedSite ic1 ic2 ri iSimdComp)
    m

/-- `deepCopy(GpuSU3Field<F,ON_GPU>&, const GpuSU3Field<OF,ON_GPU>&)`
(su3Field.hpp:561-568): the body is `CRASHER<<"Must be done with kernel"`,
a fatal error, for every pair of fundamental types `F`, `OF`; no cell
is touched. -/
def deepCopyGpuGpuOnGpu {α β : Type} (res : GpuField) (dm : Mem α)
    (oth : GpuField) (sm : Mem β) : Except String (Mem α) :=
  .error "Must be done with kernel"

/-- `deepCopy(CpuSU3Field&, const GpuSU3Field<_,ON_CPU>&)`
(su3Field.hpp:664-680): re-striding from GPU layout to CPU layout on
the host, site loop dispatched through `oth.sitesLoop`. -/
def deepCopyCpuFromGpuLayout {α : Type} (nThreads : Nat) (res : CpuField)
    (oth : GpuField) (m : Mem α) : Mem α :=
  copyLoop ((loopSplitIndices 0 oth.vol nThreads) ×ˢ colDom)
    (fun (iSite, ic1, ic2, ri) => res.base + cpuIndex iSite ic1 ic2 ri)
    (fun (iSite, ic1, ic2, ri) mem => mem (oth.base + gpuIndex oth.vol iSite ic1 ic2 ri))
    m

/-- `deepCopy(GpuSU3Field<_,ON_CPU>&, const CpuSU3Field&)`
(su3Field.hpp:682-701): re-striding from CPU layout to GPU layout on
the host, site loop dispatched through `oth.sitesLoop`. -/
def deepCopyGpuLayoutFromCpu {α : Type} (nThreads : Nat) (res : GpuField)
    (oth : CpuField) (m : Mem α) : Mem α :=
  copyLoop ((loopSplitIndices 0 oth.vol nThreads) ×ˢ colDom)
    (fun (iSite, ic1, ic2, ri) => res.base + gpuIndex res.vol iSite ic1 ic2 ri)
    (fun (iSite, ic1, ic2, ri) mem => mem (oth.base + cpuIndex iSite ic1 ic2 ri))
    m

/-! ## Memory Provider and field lifecycle

Modelled from the spec: the Memory Provider (`memoryManager.hpp`, an
external collaborator of the core) hands out typed buffers via
`provide<T>(n)` and reclaims them via `release(ptr)`; double release
is forbidden by the ownership invariant.  Here a provider is the set
of live buffer handles plus a fresh-handle counter; `release` of a
handle that is not live is the fatal misuse case. -/

/-- Modelled from the spec: state of the external Memory Provider —
live buffer handles and the next fresh handle. -/
structure MemMgr where
  live : List Nat
  next : Nat
deriving Repr, DecidableEq

/-- Modelled from the spec: `provide<T>(count)` returns a fresh buffer
handle (the requested count does not affect the handle bookkeeping). -/
def MemMgr.provide (mm : MemMgr) (count : Nat) : MemMgr × Nat :=
  (⟨mm.next :: mm.live, mm.next + 1⟩, mm.next)

/-- Modelled from the spec: `release(ptr)` reclaims a live buffer;
releasing a buffer that is not live is a fatal misuse. -/
def MemMgr.free (mm : MemMgr) (ptr : Nat) : Except String MemMgr :=
  if ptr ∈ mm.live then .ok ⟨mm.live.erase ptr, mm.next⟩
  else .error "releasing a buffer that is not allocated"

/-- The runtime data of a `CpuSU3Field` object: `vol`, `isRef`, `data`
(su3Field.hpp:112-119). -/
structure CpuFieldObj where
  vol : Nat
  isRef : Bool
  data : Nat
deriving Repr, DecidableEq

/-- The runtime data of a `SimdSU3Field` object: `fusedVol`, `isRef`,
`data` (su3Field.hpp:238-245). -/
structure SimdFieldObj where
  fusedVol : Nat
  isRef : Bool
  data : Nat
deriving Repr, DecidableEq

/-- `CpuSU3Field::CpuSU3Field(vol)` (su3Field.hpp:137-144): requests
`index(vol,0,0,0)` elements from the provider, `isRef = false`. -/
def cpuSU3FieldNew (vol : Nat) (mm : MemMgr) : CpuFieldObj × MemMgr :=
  let pr := mm.provide (cpuAllocSize vol)
  ({ vol := vol, isRef := false, data := pr.2 }, pr.1)

/-- `CpuSU3Field::CpuSU3Field(const CpuSU3Field&)` (su3Field.hpp:146-149):
`vol(oth.vol), isRef(true), data(oth.data)`. -/
def cpuSU3FieldCopy (oth : CpuFieldObj) : CpuFieldObj :=
  { vol := oth.vol, isRef := true, data := oth.data }

/-- `CpuSU3Field::~CpuSU3Field` (su3Field.hpp:151-159): release `data`
if and only if `not isRef`. -/
def cpuSU3FieldDestroy (f : CpuFieldObj) (mm : MemMgr) : Except String MemMgr :=
  if f.isRef then .ok mm else mm.free f.data

/-- `SimdSU3Field::SimdSU3Field(const int& vol)` (su3Field.hpp:283-290):
`fusedVol(vol/simdLength<Fund>), isRef(false)`, requesting
`index(fusedVol,0,0,0)` SIMD vectors.  There is no divisibility check
and no failure branch: construction always succeeds, `fusedVol` being
the integer quotient. -/
def simdSU3FieldNew (laneWidth vol : Nat) (mm : MemMgr) : SimdFieldObj × MemMgr :=
  let pr := mm.provide (simdAllocSize (vol / laneWidth))
  ({ fusedVol := vol / laneWidth, isRef := false, data := pr.2 }, pr.1)

/-- `SimdSU3Field::SimdSU3Field(const SimdSU3Field&)` (su3Field.hpp:292-296). -/
def simdSU3FieldCopy (oth : SimdFieldObj) : SimdFieldObj :=
  { fusedVol := oth.fusedVol, isRef := true, data := oth.data }

/-- `SimdSU3Field::~SimdSU3Field` (su3Field.hpp:298-306). -/
def simdSU3FieldDestroy (f : SimdFieldObj) (mm : MemMgr) : Except String MemMgr :=
  if f.isRef then .ok mm else mm.free f.data

/-- The runtime data of a `GpuSU3Field` object: `vol`, `isRef`, `data`
(su3Field.hpp:441-448). -/
structure GpuFieldObj where
  vol : Nat
  isRef : Bool
  data : Nat
deriving Repr, DecidableEq

/-- `GpuSU3Field::GpuSU3Field(const int& vol)` (su3Field.hpp:466-473):
requests `index(0,NCOL,0,0)` elements, `isRef = false`. -/
def gpuSU3FieldNew (vol : Nat) (mm : MemMgr) : GpuFieldObj × MemMgr :=
  let pr := mm.provide (gpuAllocSize vol)
  ({ vol := vol, isRef := false, data := pr.2 }, pr.1)

/-! ## The pool hand-off protocol (pool.hpp:111-185)

One dispatch cycle of a started pool with `N` threads: the controller
(thread `0`) runs `resources::parallelWhenPoolStarted(f)`
(pool.hpp:120-131) and each worker `t ∈ [1,N)` runs one iteration of
`poolWorkerLoop` (pool.hpp:157-185), i.e. `waitForWork(); work(t)`.
Every numbered source line is one atomic step; a spin loop is a step
that can only fire when its exit condition holds.  The model is
sequentially consistent (the release store / acquire fence pair of
the source is what justifies this for the real machine).

Controller program counter `cpc`:
  0: spin in `waitThatAllWorkersWaitForWork()` until
     `nThreadsWaitingForWork == nThreads-1`      (pool.hpp:115, 124)
  1: `work = f`                                  (pool.hpp:125)
  2: `nThreadsWaitingForWork = 0`                (pool.hpp:127)
  3: `nWorksAssigned.store(nWorksAssigned+1)`    (pool.hpp:128)
  4: `work(masterThreadId)`                      (pool.hpp:130)
  5: done.

Worker `t` program counter `wpc t`:
  0: `prevNWorkAssigned = nWorksAssigned`        (pool.hpp:162)
  1: `nThreadsWaitingForWork.fetch_add(1)`       (pool.hpp:165)
  2: spin until `nWorksAssigned != prevNWorkAssigned` (pool.hpp:154, 168)
  3: `work(threadId)`                            (pool.hpp:182)
  4: done.

`execBy t` records the work item thread `t` has executed in this
cycle (`none` while it has not reached its call of `work`). -/

/-- Shared and per-thread state of one dispatch cycle. -/
structure PoolConfig (W : Type) where
  nWaiting : Nat
  nWorks : Nat
  work : W
  cpc : Nat
  wpc : Nat → Nat
  prev : Nat → Nat
  execBy : Nat → Option W

/-- One atomic step of the hand-off protocol for a started pool of `N`
threads dispatching work item `f`. -/
inductive PoolStep (N : Nat) (f : W) : PoolConfig W → PoolConfig W → Prop where
  | masterWait {c : PoolConfig W} :
      c.cpc = 0 → c.nWaiting = N - 1 →
      PoolStep N f c { c with cpc := 1 }
  | masterInstall {c : PoolConfig W} :
      c.cpc = 1 →
      PoolStep N f c { c with work := f, cpc := 2 }
  | masterResetWaiting {c : PoolConfig W} :
      c.cpc = 2 →
      PoolStep N f c { c with nWaiting := 0, cpc := 3 }
  | masterBumpWorks {c : PoolConfig W} :
      c.cpc = 3 →
      PoolStep N f c { c with nWorks := c.nWorks + 1, cpc := 4 }
  | masterRun {c : PoolConfig W} :
      c.cpc = 4 →
      PoolStep N f c { c with execBy := Function.update c.execBy 0 (some c.work), cpc := 5 }
  | workerReadPrev {c : PoolConfig W} (t : Nat) :
      1 ≤ t → t < N → c.wpc t = 0 →
      PoolStep N f c { c with prev := Function.update c.prev t c.nWorks,
                              wpc := Function.update c.wpc t 1 }
  | workerEnterWait {c : PoolConfig W} (t : Nat) :
      1 ≤ t → t < N → c.wpc t = 1 →
      PoolStep N f c { c with nWaiting := c.nWaiting + 1,
                              wpc := Function.update c.wpc t 2 }
  | workerSeeNewWork {c : PoolConfig W} (t : Nat) :
      1 ≤ t → t < N → c.wpc t = 2 → c.nWorks ≠ c.prev t →
      PoolStep N f c { c with wpc := Function.update c.wpc t 3 }
  | workerRun {c : PoolConfig W} (t : Nat) :
      1 ≤ t → t < N → c.wpc t = 3 →
      PoolStep N f c { c with execBy := Function.update c.execBy t (some c.work),
                              wpc := Function.update c.wpc t 4 }

/-- Start of a dispatch cycle: idle counter `0`, work-sequence counter
`s0`, previously installed work item `w0`, every thread at the top of
its routine, nothing executed yet this cycle. -/
def initConfig (w0 : W) (s0 : Nat) : PoolConfig W :=
  { nWaiting := 0, nWorks := s0, work := w0, cpc := 0,
    wpc := fun _ => 0, prev := fun _ => 0, execBy := fun _ => none }

/-- Configurations reachable during the dispatch cycle. -/
def PoolReach (N : Nat) (f w0 : W) (s0 : Nat) (c : PoolConfig W) : Prop :=
  Relation.ReflTransGen (PoolStep N f) (initConfig w0 s0) c

/-! ## poolLoop start guard (pool.hpp:189-198)

`poolLoop` first checks the recursion guard:

    if(poolIsStarted)
      CRASHER<<"Cannot fill again the pool!"<<endl;
    else
      poolIsStarted=true;

`CRASHER` is fatal (reported, the process terminates); the error case
is modelled as `Except.error` carrying the message and the state at
the moment of the crash. -/

/-- The process-wide scheduler flags touched by `poolLoop`'s guard. -/
structure PoolFlags where
  poolIsStarted : Bool
deriving Repr, DecidableEq

/-- Entry of `ThreadPool::poolLoop` (pool.hpp:193-198): fatal error if
the pool is already started, otherwise set the started flag. -/
def poolLoopEntry (s : PoolFlags) : Except (String × PoolFlags) PoolFlags :=
  if s.poolIsStarted then .error ("Cannot fill again the pool!", s)
  else .ok { s with poolIsStarted := true }

/-- Two address ranges `[b1, b1+n1)` and `[b2, b2+n2)` do not overlap
(distinct live allocations from the Memory Provider always satisfy
this). -/
def disjointRegions (b1 n1 b2 n2 : Nat) : Prop :=
  b1 + n1 ≤ b2 ∨ b2 + n2 ≤ b1

/-- Number of workers of `[1, N)` that are parked past their
idle-counter increment (`wpc ≥ 2`). -/
def parkedCount (N : Nat) (wpc : Nat → Nat) : Nat :=
  ((Finset.Ico 1 N).filter (fun t => 2 ≤ wpc t)).card

/-- The inductive invariant of one dispatch cycle: it pins down the
order of the controller's state changes (the work item flips to `f`
exactly when the controller has passed its install step, the sequence
counter is bumped exactly when it has passed its store, no worker can
have seen the new sequence value before that store, the controller
cannot have passed its wait before every worker parked) and the
execution records. -/
def PoolInv (N : Nat) (f w0 : W) (s0 : Nat) (c : PoolConfig W) : Prop :=
  (c.work = if 2 ≤ c.cpc then f else w0) ∧
  (c.nWorks = if 4 ≤ c.cpc then s0 + 1 else s0) ∧
  (1 ≤ c.cpc → ∀ t, 1 ≤ t → t < N → 2 ≤ c.wpc t) ∧
  (∀ t, 1 ≤ t → t < N → 1 ≤ c.wpc t → c.prev t = s0) ∧
  (∀ t, 1 ≤ t → t < N → 3 ≤ c.wpc t → 4 ≤ c.cpc) ∧
  (c.cpc = 0 → c.nWaiting = parkedCount N c.wpc) ∧
  (c.execBy 0 = if c.cpc = 5 then some f else none) ∧
  (∀ t, 1 ≤ t → t < N → c.execBy t = if c.wpc t = 4 then some f else none)

/-- The final configuration of a complete two-thread dispatch cycle,
used to witness C5. -/
def handoffFinal : PoolConfig Bool :=
  { nWaiting := 0, nWorks := 1, work := true, cpc := 5,
    wpc := Function.update (Function.update (Function.update
      (Function.update (fun _ => 0) 1 1) 1 2) 1 3) 1 4,
    prev := Function.update (fun _ => 0) 1 0,
    execBy := Function.update (Function.update (fun _ => none) 0 (some true)) 1
      (some true) }

/-- Addresses never written by the loop keep their value. -/
theorem copyLoop_frame {ι κ α : Type} [DecidableEq κ] (dom : List ι) (addr : ι → κ)
    (val : ι → (κ → α) → α) (m : κ → α) (k : κ) (h : ∀ i ∈ dom, addr i ≠ k) :
    copyLoop dom addr val m k = m k := by
  induction dom generalizing m with
  | nil => rfl
  | cons a rest ih =>
    have ha : addr a ≠ k := h a (List.mem_cons_self a rest)
    have hrest : ∀ i ∈ rest, addr i ≠ k := fun i hi => h i (List.mem_cons_of_mem a hi)
    simp only [copyLoop, List.foldl_cons] at *
    rw [ih _ hrest, Function.update_noteq (Ne.symm ha)]

/-- When the assigned values do not depend on the memory (witnessed by
`hval`), an address all of whose writers agree on the value ends up
holding that value. -/
theorem copyLoop_lookup {ι κ α : Type} [DecidableEq κ] (dom : List ι) (addr : ι → κ)
    (val : ι → (κ → α) → α) (v : ι → α) (hval : ∀ i mem, val i mem = v i)
    (m : κ → α) (j : ι) (hj : ∃ i ∈ dom, addr i = addr j)
    (huniq : ∀ i ∈ dom, addr i = addr j → v i = v j) :
    copyLoop dom addr val m (addr j) = v j := by
  induction dom using List.reverseRecOn generalizing m with
  | nil => simp at hj
  | append_singleton rest a ih =>
    simp only [copyLoop, List.foldl_append, List.foldl_cons, List.foldl_nil] at *
    rw [hval]
    by_cases hak : addr a = addr j
    · rw [hak, Function.update_same]
      exact huniq a (List.mem_append_right rest (List.mem_singleton_self a)) hak
    · rw [Function.update_noteq (fun h => hak h.symm)]
      obtain ⟨i, hi, hik⟩ := hj
      rcases List.mem_append.mp hi with hi' | hi'
      · exact ih m ⟨i, hi', hik⟩
          (fun i' hi'' h' => huniq i' (List.mem_append_left _ hi'') h')
      · exact absurd hik (by simpa [List.eq_of_mem_singleton hi'] using hak)

/-! ## Arithmetic facts about the index functions -/

/-- The SIMD index function is literally the CPU one (site-major,
colour-minor), acting on fused sites. -/
theorem simdIndex_eq_cpuIndex : @simdIndex = @cpuIndex := rfl

/-- The CPU index of a valid tuple is below the allocated size. -/
theorem cpuIndex_lt (vol iSite icol1 icol2 reim : Nat) (hs : iSite < vol)
    (h1 : icol1 < NCOL) (h2 : icol2 < NCOL) (hr : reim < 2) :
    cpuIndex iSite icol1 icol2 reim < cpuAllocSize vol := by
  simp only [cpuIndex, cpuAllocSize, NCOL] at *
  omega

/-- The CPU index function is injective in the colour/reIm components
and (unconditionally) in the site. -/
theorem cpuIndex_inj (s c1 c2 r s' c1' c2' r' : Nat)
    (h1 : c1 < NCOL) (h2 : c2 < NCOL) (hr : r < 2)
    (h1' : c1' < NCOL) (h2' : c2' < NCOL) (hr' : r' < 2)
    (heq : cpuIndex s c1 c2 r = cpuIndex s' c1' c2' r') :
    s = s' ∧ c1 = c1' ∧ c2 = c2' ∧ r = r' := by
  simp only [cpuIndex, NCOL] at *
  omega

/-- The GPU index of a valid tuple is below the allocated size. -/
theorem gpuIndex_lt (vol iSite icol1 icol2 reim : Nat) (hs : iSite < vol)
    (h1 : icol1 < NCOL) (h2 : icol2 < NCOL) (hr : reim < 2) :
    gpuIndex vol iSite icol1 icol2 reim < gpuAllocSize vol := by
  have hk : vol * (icol2 + NCOL * icol1) ≤ vol * 8 :=
    Nat.mul_le_mul_left vol (by simp only [NCOL] at *; omega)
  simp only [gpuIndex, gpuAllocSize, NCOL] at *
  omega

/-- The GPU index function is injective on valid tuples. -/
theorem gpuIndex_inj (vol s c1 c2 r s' c1' c2' r' : Nat) (hs : s < vol) (hs' : s' < vol)
    (h1 : c1 < NCOL) (h2 : c2 < NCOL) (hr : r < 2)
    (h1' : c1' < NCOL) (h2' : c2' < NCOL) (hr' : r' < 2)
    (heq : gpuIndex vol s c1 c2 r = gpuIndex vol s' c1' c2' r') :
    s = s' ∧ c1 = c1' ∧ c2 = c2' ∧ r = r' := by
  have hvol : 0 < vol := Nat.lt_of_le_of_lt (Nat.zero_le s) hs
  simp only [gpuIndex, NCOL] at heq
  obtain ⟨a, ha⟩ : ∃ a, s + vol * (c2 + 3 * c1) = a := ⟨_, rfl⟩
  obtain ⟨a', ha'⟩ : ∃ a', s' + vol * (c2' + 3 * c1') = a' := ⟨_, rfl⟩
  rw [ha, ha'] at heq
  have haa : a = a' := by omega
  have hra : r = r' := by omega
  have hmod : s = s' := by
    have h := congrArg (fun x => x % vol) (ha.trans (haa.trans ha'.symm))
    simpa [Nat.add_mul_mod_self_left, Nat.mod_eq_of_lt hs, Nat.mod_eq_of_lt hs'] using h
  have hk : c2 + 3 * c1 = c2' + 3 * c1' := by
    have h := ha.trans (haa.trans ha'.symm)
    rw [hmod] at h
    exact Nat.eq_of_mul_eq_mul_left hvol (Nat.add_left_cancel h)
  simp only [NCOL] at *
  omega

/-! ## Membership facts about the loop domains -/

/-- Unfold membership in the colour/reIm loop nest. -/
theorem mem_colDom {x : Nat × Nat × Nat} :
    x ∈ colDom ↔ x.1 < NCOL ∧ x.2.1 < NCOL ∧ x.2.2 < 2 := by
  obtain ⟨a, b, c⟩ := x
  simp [colDom, List.mem_product, List.mem_range]

/-- Unfold membership in the site/colour/reIm loop nest. -/
theorem mem_siteColDom {n : Nat} {x : Nat × Nat × Nat × Nat} :
    x ∈ siteColDom n ↔ x.1 < n ∧ x.2.1 < NCOL ∧ x.2.2.1 < NCOL ∧ x.2.2.2 < 2 := by
  obtain ⟨s, a, b, c⟩ := x
  simp [siteColDom, colDom, List.mem_product, List.mem_range]

/-- Every index a `loopSplit` worker visits is below `e`. -/
theorem mem_loopSplitIndices_lt {b e n i : Nat} (h : i ∈ loopSplitIndices b e n) :
    i < e := by
  simp only [loopSplitIndices, List.mem_flatMap, List.mem_range] at h
  obtain ⟨t, -, ht⟩ := h
  simp only [chunkIndices, List.mem_range'_1, threadEnd] at ht
  omega

/-- A worker's chunk is exactly the interval
`[threadBeg, threadEnd)`. -/
theorem mem_chunkIndices {b e n t i : Nat} :
    i ∈ chunkIndices b e n t ↔ threadBeg b e n t ≤ i ∧ i < threadEnd b e n t := by
  simp only [chunkIndices, List.mem_range'_1]
  omega

/-- Each worker visits its chunk in strictly increasing order. -/
theorem chunkIndices_sorted (b e n t : Nat) :
    (chunkIndices b e n t).Pairwise (· < ·) :=
  List.pairwise_lt_range' _ _

/-- No index is ever visited twice in one `loopSplit` dispatch (for
any `beg`): the chunks of distinct workers are disjoint intervals and
each chunk is duplicate-free. -/
theorem loopSplitIndices_nodup (b e n : Nat) : (loopSplitIndices b e n).Nodup := by
  rw [loopSplitIndices, List.nodup_flatMap]
  constructor
  · intro t _
    exact List.nodup_range' _ _
  · refine (List.pairwise_lt_range n).imp ?_
    intro t t' htt i hit hit'
    rw [mem_chunkIndices] at hit hit'
    have hend : threadEnd b e n t ≤ threadBeg b e n t' := by
      have h1 : threadEnd b e n t ≤ threadBeg b e n t + threadLoad b e n := by
        unfold threadEnd
        omega
      have h2 : threadLoad b e n * (t + 1) ≤ threadLoad b e n * t' :=
        Nat.mul_le_mul_left _ (by omega)
      unfold threadBeg at *
      have h3 : threadLoad b e n * (t + 1) = threadLoad b e n * t + threadLoad b e n :=
        by ring
      omega
    omega

/-- With `beg = 0` (as at every in-repo call site) the dispatch
visits exactly the indices of `[0, e)`: together with
`loopSplitIndices_nodup` and `chunkIndices_sorted` this is precisely
the guarantee C1 claims, restricted to `beg = 0` — showing the missing
`beg` offset in the chunk start is the lone defect. -/
theorem loopSplitIndices_beg_zero_mem (e n i : Nat) (hn : 1 ≤ n) :
    i ∈ loopSplitIndices 0 e n ↔ i < e := by
  constructor
  · exact mem_loopSplitIndices_lt
  · intro hi
    have hq1 : 1 ≤ threadLoad 0 e n := by
      unfold threadLoad
      refine (Nat.one_le_div_iff (by omega)).mpr (by omega)
    have hqn : e ≤ n * threadLoad 0 e n := by
      have h1 : (e - 0 + n - 1) / n < (e - 0 + n - 1) / n + 1 := Nat.lt_succ_self _
      have h2 := (Nat.div_lt_iff_lt_mul (show 0 < n by omega)).mp h1
      have h3 : ((e - 0 + n - 1) / n + 1) * n = (e - 0 + n - 1) / n * n + n := by ring
      have h4 : n * threadLoad 0 e n = (e - 0 + n - 1) / n * n := by
        unfold threadLoad
        ring
      omega
    have ht : i / threadLoad 0 e n < n := by
      refine (Nat.div_lt_iff_lt_mul (by omega)).mpr ?_
      omega
    simp only [loopSplitIndices, List.mem_flatMap, List.mem_range]
    refine ⟨i / threadLoad 0 e n, ht, ?_⟩
    rw [mem_chunkIndices]
    have hble : threadLoad 0 e n * (i / threadLoad 0 e n) ≤ i :=
      Nat.mul_div_le i (threadLoad 0 e n)
    have hmod : threadLoad 0 e n * (i / threadLoad 0 e n) + i % threadLoad 0 e n = i :=
      Nat.div_add_mod i (threadLoad 0 e n)
    have hmlt : i % threadLoad 0 e n < threadLoad 0 e n := Nat.mod_lt i (by omega)
    constructor
    · exact hble
    · unfold threadEnd threadBeg
      omega

/-! ## Claim theorems -/

/-- C1: the claimed coverage of `[begin, end)` fails on the code.
`loopSplit` computes each chunk start as `threadLoad*threadId`
(pool.hpp:240-241) without adding `beg`, although the load is computed
from `end-beg`; so for `begin = 1, end = 2, N = 1` the dispatch visits
exactly the index `0` — the index `1 ∈ [1,2)` is never visited — and
for `begin = 2, end = 4, N = 2` it visits `0` and `1` instead of `2`
and `3`. -/
theorem loopSplit_ignores_begin :
    loopSplitIndices 1 2 1 = [0] ∧ loopSplitIndices 2 4 2 = [0, 1] := by
  decide

/-- C2 counterexample: constructing a `SimdSU3Field` with `vol = 5`
and `laneWidth = 4` does not fail — the constructor has no failure
branch — and silently truncates: `fusedVol = 5/4 = 1`, so 4 of the 5
requested sites survive. -/
theorem simd_ctor_truncation_cex :
    (simdSU3FieldNew 4 5 ⟨[], 0⟩).1.fusedVol = 1 ∧ ¬ (4 ∣ 5) := by
  decide

/-- C2 (amended): the `SimdSU3Field` constructor always succeeds and
sets `fusedVol = vol / laneWidth` by integer division; a volume that
is not a multiple of the lane width is silently truncated
(`laneWidth * fusedVol < vol`), not rejected; for an exact multiple
`laneWidth * fusedVol = vol`. -/
theorem simd_ctor_fusedVol (laneWidth vol : Nat) (mm : MemMgr) (hL : 0 < laneWidth) :
    (simdSU3FieldNew laneWidth vol mm).1.fusedVol = vol / laneWidth ∧
    (laneWidth ∣ vol ↔
      laneWidth * (simdSU3FieldNew laneWidth vol mm).1.fusedVol = vol) ∧
    (¬ laneWidth ∣ vol →
      laneWidth * (simdSU3FieldNew laneWidth vol mm).1.fusedVol < vol) := by
  refine ⟨rfl, ⟨fun h => Nat.mul_div_cancel' h, fun h => ⟨_, h.symm⟩⟩, fun h => ?_⟩
  have hle : laneWidth * (vol / laneWidth) ≤ vol := Nat.mul_div_le vol laneWidth
  have hne : laneWidth * (vol / laneWidth) ≠ vol := fun hcon => h ⟨_, hcon.symm⟩
  exact Nat.lt_of_le_of_ne hle hne

/-- Witness for C2's amended theorem at `laneWidth = 4, vol = 16`. -/
theorem simd_ctor_fusedVol_witness :
    0 < 4 ∧ (simdSU3FieldNew 4 16 ⟨[], 0⟩).1.fusedVol = 16 / 4 :=
  ⟨by decide, (simd_ctor_fusedVol 4 16 ⟨[], 0⟩ (by decide)).1⟩

/-- C4: the linear buffer offsets are
`reim + 2*(icol2 + NCOL*(icol1 + NCOL*site))` for the Scalar-CPU and
SIMD-fused layouts and `reim + 2*(site + vol*(icol2 + NCOL*icol1))`
for the Accelerator layout. -/
theorem index_formulas (vol iSite icol1 icol2 reim : Nat) :
    cpuIndex iSite icol1 icol2 reim
        = reim + 2 * (icol2 + NCOL * (icol1 + NCOL * iSite)) ∧
    simdIndex iSite icol1 icol2 reim
        = reim + 2 * (icol2 + NCOL * (icol1 + NCOL * iSite)) ∧
    gpuIndex vol iSite icol1 icol2 reim
        = reim + 2 * (iSite + vol * (icol2 + NCOL * icol1)) :=
  ⟨rfl, rfl, rfl⟩

/-- C6: a field constructed with a site count has `isRef = false`; its
copy has `isRef = true` and aliases the same buffer; destroying the
copy releases nothing (any provider state is returned untouched);
destroying the original afterwards performs the one and only release
of the buffer, which succeeds and removes it from the live set.
Stated for both the `CpuSU3Field` and the `SimdSU3Field` lifecycle. -/
theorem field_ownership (laneWidth vol : Nat) (mm : MemMgr) :
    (cpuSU3FieldNew vol mm).1.isRef = false ∧
    (cpuSU3FieldCopy (cpuSU3FieldNew vol mm).1).isRef = true ∧
    (cpuSU3FieldCopy (cpuSU3FieldNew vol mm).1).data = (cpuSU3FieldNew vol mm).1.data ∧
    (∀ mm' : MemMgr,
      cpuSU3FieldDestroy (cpuSU3FieldCopy (cpuSU3FieldNew vol mm).1) mm' = .ok mm') ∧
    cpuSU3FieldDestroy (cpuSU3FieldNew vol mm).1 (cpuSU3FieldNew vol mm).2
        = .ok ⟨mm.live, mm.next + 1⟩ ∧
    (simdSU3FieldNew laneWidth vol mm).1.isRef = false ∧
    (simdSU3FieldCopy (simdSU3FieldNew laneWidth vol mm).1).isRef = true ∧
    (simdSU3FieldCopy (simdSU3FieldNew laneWidth vol mm).1).data
        = (simdSU3FieldNew laneWidth vol mm).1.data ∧
    (∀ mm' : MemMgr,
      simdSU3FieldDestroy (simdSU3FieldCopy (simdSU3FieldNew laneWidth vol mm).1) mm'
        = .ok mm') ∧
    simdSU3FieldDestroy (simdSU3FieldNew laneWidth vol mm).1
        (simdSU3FieldNew laneWidth vol mm).2 = .ok ⟨mm.live, mm.next + 1⟩ := by
  refine ⟨rfl, rfl, rfl, fun mm' => rfl, ?_, rfl, rfl, rfl, fun mm' => rfl, ?_⟩ <;>
    simp [cpuSU3FieldDestroy, simdSU3FieldDestroy, cpuSU3FieldNew, simdSU3FieldNew,
      MemMgr.provide, MemMgr.free]

/-- C7: the device-to-device, Accelerator-layout `deepCopy` overload is
the fatal "Must be done with kernel" error for every pair of
fundamental types (here: every pair of value types), and no
destination memory is ever produced. -/
theorem gpu_gpu_deepCopy_fatal {α β : Type} (res : GpuField) (dm : Mem α)
    (oth : GpuField) (sm : Mem β) :
    deepCopyGpuGpuOnGpu res dm oth sm = .error "Must be done with kernel" ∧
    ∀ m' : Mem α, deepCopyGpuGpuOnGpu res dm oth sm ≠ .ok m' :=
  ⟨rfl, fun _ h => Except.noConfusion h⟩

/-- C8: invoking `poolLoop` while the pool-active flag is up hits the
fatal `CRASHER<<"Cannot fill again the pool!"` branch: the error is
reported and the scheduler state at the moment of the crash is exactly
the entry state — the failed attempt changes nothing. -/
theorem poolLoop_restart_fatal (s : PoolFlags) (h : s.poolIsStarted = true) :
    poolLoopEntry s = .error ("Cannot fill again the pool!", s) := by
  simp [poolLoopEntry, h]

/-- Witness for C8 at the started-pool state. -/
theorem poolLoop_restart_fatal_witness :
    poolLoopEntry ⟨true⟩ = .error ("Cannot fill again the pool!", ⟨true⟩) :=
  poolLoop_restart_fatal ⟨true⟩ rfl

/-- C10: each constructor requests exactly `2*NCOL*NCOL*vol` elements
(`vol` being the fused volume for the SIMD layout: the sizes computed
by the constructors as `index(vol,0,0,0)` resp. `index(0,NCOL,0,0)`
all equal `2*NCOL*NCOL*vol`), and each layout's index function maps
every valid tuple into `[0, 2*NCOL*NCOL*vol)` injectively: every
valid access is in bounds and distinct logical cells never alias. -/
theorem alloc_size_and_index_injective (vol s c1 c2 r s' c1' c2' r' : Nat)
    (hs : s < vol) (hc1 : c1 < NCOL) (hc2 : c2 < NCOL) (hr : r < 2)
    (hs' : s' < vol) (hc1' : c1' < NCOL) (hc2' : c2' < NCOL) (hr' : r' < 2) :
    cpuAllocSize vol = 2 * NCOL * NCOL * vol ∧
    simdAllocSize vol = 2 * NCOL * NCOL * vol ∧
    gpuAllocSize vol = 2 * NCOL * NCOL * vol ∧
    cpuIndex s c1 c2 r < cpuAllocSize vol ∧
    simdIndex s c1 c2 r < simdAllocSize vol ∧
    gpuIndex vol s c1 c2 r < gpuAllocSize vol ∧
    (cpuIndex s c1 c2 r = cpuIndex s' c1' c2' r' → (s, c1, c2, r) = (s', c1', c2', r')) ∧
    (simdIndex s c1 c2 r = simdIndex s' c1' c2' r' → (s, c1, c2, r) = (s', c1', c2', r')) ∧
    (gpuIndex vol s c1 c2 r = gpuIndex vol s' c1' c2' r'
      → (s, c1, c2, r) = (s', c1', c2', r')) := by
  refine ⟨by simp [cpuAllocSize, cpuIndex, NCOL]; ring,
    by simp [simdAllocSize, simdIndex, NCOL]; ring,
    by simp [gpuAllocSize, gpuIndex, NCOL]; ring,
    cpuIndex_lt vol s c1 c2 r hs hc1 hc2 hr,
    cpuIndex_lt vol s c1 c2 r hs hc1 hc2 hr,
    gpuIndex_lt vol s c1 c2 r hs hc1 hc2 hr,
    fun h => ?_, fun h => ?_, fun h => ?_⟩
  · obtain ⟨e1, e2, e3, e4⟩ := cpuIndex_inj s c1 c2 r s' c1' c2' r' hc1 hc2 hr hc1' hc2' hr' h
    simp [e1, e2, e3, e4]
  · obtain ⟨e1, e2, e3, e4⟩ := cpuIndex_inj s c1 c2 r s' c1' c2' r' hc1 hc2 hr hc1' hc2' hr' h
    simp [e1, e2, e3, e4]
  · obtain ⟨e1, e2, e3, e4⟩ :=
      gpuIndex_inj vol s c1 c2 r s' c1' c2' r' hs hs' hc1 hc2 hr hc1' hc2' hr' h
    simp [e1, e2, e3, e4]

/-- Witness for C10 at `vol = 2` and two concrete distinct tuples. -/
theorem alloc_size_and_index_injective_witness :
    (1 < 2 ∧ 2 < NCOL ∧ 0 < NCOL ∧ 1 < 2 ∧ 0 < 2 ∧ 1 < NCOL ∧ 2 < NCOL ∧ 0 < 2) ∧
    cpuAllocSize 2 = 2 * NCOL * NCOL * 2 :=
  ⟨by decide,
    (alloc_size_and_index_injective 2 1 2 0 1 0 1 2 0 (by decide) (by decide) (by decide)
      (by decide) (by decide) (by decide) (by decide) (by decide)).1⟩

/-- An address inside the first of two disjoint regions differs from
any address inside the second. -/
theorem disjointRegions_ne {b1 n1 b2 n2 x y : Nat} (h : disjointRegions b1 n1 b2 n2)
    (hx : x < n1) (hy : y < n2) : b1 + x ≠ b2 + y := by
  unfold disjointRegions at h
  omega

/-- C3: for a Scalar-CPU field `F` whose volume is a multiple of the
lane width, converting to the SIMD-fused layout with `deepCopy` and
back to a fresh Scalar-CPU field of the same fundamental precision
reproduces every cell of `F` exactly (the value type `α` is copied
with no cast, which is the no-narrowing case). -/
theorem cpu_simd_cpu_roundtrip {α : Type} (L : Nat) (F : CpuField) (m : Mem α)
    (sf : SimdField) (sm0 : SMem α) (G : CpuField) (m1 : Mem α)
    (s c1 c2 r : Nat) (hL : 0 < L) (hdvd : L ∣ F.vol)
    (hsf : sf.fusedVol = F.vol / L) (hG : G.vol = F.vol)
    (hs : s < F.vol) (hc1 : c1 < NCOL) (hc2 : c2 < NCOL) (hr : r < 2) :
    CpuField.read G (deepCopyCpuFromSimd L G m1 sf (deepCopySimdFromCpu L sf sm0 F m))
        s c1 c2 r
      = CpuField.read F m s c1 c2 r := by
  have hfl : sf.fusedVol * L = F.vol := by rw [hsf, Nat.div_mul_cancel hdvd]
  have hsL : s % L + L * (s / L) = s := Nat.mod_add_div s L
  have hdivlt : s / L < sf.fusedVol := by
    rw [hsf]
    exact (Nat.div_lt_iff_lt_mul hL).mpr (by rw [Nat.div_mul_cancel hdvd]; exact hs)
  -- the intermediate SIMD-fused image of F
  set s1 : SMem α := deepCopySimdFromCpu L sf sm0 F m with hs1
  -- Step B: every lane of the intermediate holds the matching cell of F
  have key2 : s1 (sf.base + simdIndex (s / L) c1 c2 r, s % L)
      = CpuField.read F m s c1 c2 r := by
    have h2 := copyLoop_lookup (siteColDom (sf.fusedVol * L))
      (fun x : Nat × Nat × Nat × Nat =>
        (sf.base + simdIndex (x.1 / L) x.2.1 x.2.2.1 x.2.2.2, x.1 % L))
      (fun x _ => CpuField.read F m x.1 x.2.1 x.2.2.1 x.2.2.2)
      (fun x => CpuField.read F m x.1 x.2.1 x.2.2.1 x.2.2.2)
      (fun _ _ => rfl) sm0 (s, c1, c2, r)
      ⟨(s, c1, c2, r), by
        rw [mem_siteColDom]
        exact ⟨by rw [hfl]; exact hs, hc1, hc2, hr⟩, rfl⟩
      (fun i hi heq => by
        obtain ⟨t, a, b, c⟩ := i
        rw [mem_siteColDom] at hi
        simp only [Prod.mk.injEq] at heq ⊢
        obtain ⟨hidx, hmod⟩ := heq
        obtain ⟨hdiv, ha, hb, hc⟩ := cpuIndex_inj (t / L) a b c (s / L) c1 c2 r
          hi.2.1 hi.2.2.1 hi.2.2.2 hc1 hc2 hr (Nat.add_left_cancel hidx)
        have ht : t = s := by
          have h1 := Nat.div_add_mod t L
          have h2 := Nat.div_add_mod s L
          rw [hdiv, hmod] at h1
          omega
        simp [ht, ha, hb, hc])
    have hshape : deepCopySimdFromCpu L sf sm0 F m
        (sf.base + simdIndex (s / L) c1 c2 r, s % L)
        = CpuField.read F m s c1 c2 r := h2
    rw [hs1]
    exact hshape
  -- Step A: reading back from the fused field reproduces the lane
  have key1 := copyLoop_lookup
    ((List.range sf.fusedVol) ×ˢ (List.range NCOL) ×ˢ (List.range NCOL) ×ˢ
      (List.range 2) ×ˢ (List.range L))
    (fun x : Nat × Nat × Nat × Nat × Nat =>
      G.base + cpuIndex (x.2.2.2.2 + L * x.1) x.2.1 x.2.2.1 x.2.2.2.1)
    (fun x _ => SimdField.read sf s1 x.1 x.2.1 x.2.2.1 x.2.2.2.1 x.2.2.2.2)
    (fun x => SimdField.read sf s1 x.1 x.2.1 x.2.2.1 x.2.2.2.1 x.2.2.2.2)
    (fun _ _ => rfl) m1 (s / L, c1, c2, r, s % L)
    ⟨(s / L, c1, c2, r, s % L), by
      simp only [List.mem_product, List.mem_range]
      exact ⟨hdivlt, hc1, hc2, hr, Nat.mod_lt s hL⟩, rfl⟩
    (fun i hi heq => by
      obtain ⟨t, a, b, c, l⟩ := i
      simp only [List.mem_product, List.mem_range] at hi
      simp only [] at heq ⊢
      obtain ⟨hsite, ha, hb, hc⟩ := cpuIndex_inj (l + L * t) a b c
        (s % L + L * (s / L)) c1 c2 r hi.2.1 hi.2.2.1 hi.2.2.2.1 hc1 hc2 hr
        (Nat.add_left_cancel heq)
      rw [hsL] at hsite
      obtain ⟨hdiv, hmod⟩ := (Nat.div_mod_unique hL).mpr ⟨hsite, hi.2.2.2.2⟩
      simp [← hdiv, ← hmod, ha, hb, hc])
  simp only [] at key1
  rw [hsL] at key1
  show deepCopyCpuFromSimd L G m1 sf s1 (G.base + cpuIndex s c1 c2 r)
      = CpuField.read F m s c1 c2 r
  rw [deepCopyCpuFromSimd, key1]
  show s1 (sf.base + simdIndex (s / L) c1 c2 r, s % L) = CpuField.read F m s c1 c2 r
  exact key2

/-- Witness for C3: volume 16, lane width 4, cell (5,1,2,1). -/
theorem cpu_simd_cpu_roundtrip_witness :
    (0 < 4 ∧ 4 ∣ 16 ∧ 5 < 16 ∧ 1 < NCOL ∧ 2 < NCOL ∧ 1 < 2) ∧
    CpuField.read ⟨16, 1000⟩
      (deepCopyCpuFromSimd 4 ⟨16, 1000⟩ (fun _ => 0) ⟨4, 0⟩
        (deepCopySimdFromCpu 4 ⟨4, 0⟩ (fun _ => 0) ⟨16, 0⟩ (fun a => a)))
      5 1 2 1
      = CpuField.read ⟨16, 0⟩ (fun a => a) 5 1 2 1 :=
  ⟨by decide,
    cpu_simd_cpu_roundtrip 4 ⟨16, 0⟩ (fun a => a) ⟨4, 0⟩ (fun _ => 0) ⟨16, 1000⟩
      (fun _ => 0) 5 1 2 1 (by decide) (by decide) rfl rfl
      (by decide) (by decide) (by decide) (by decide)⟩

/-- C9: the element-wise `deepCopy` overloads write only into the
destination's buffer region, so when the source's buffer region is
disjoint from the destination's (they are distinct allocations),
every cell of the source reads the same after the call as before.
Stated for the three overloads whose source and destination live in
the same (scalar host) address space: Scalar→Scalar
(su3Field.hpp:524-538), GPU-layout-on-host→Scalar
(su3Field.hpp:664-680) and Scalar→GPU-layout-on-host
(su3Field.hpp:682-701); the SIMD↔Scalar overloads write only into the
other address space, so their source is untouched by construction. -/
theorem deepCopy_source_unchanged {α : Type} (nThreads vol : Nat)
    (resA othA resB : CpuField) (othB : GpuField) (resC : GpuField) (othC : CpuField)
    (m : Mem α) (s c1 c2 r : Nat)
    (hresA : resA.vol = vol) (hothA : othA.vol = vol) (hothB : othB.vol = vol)
    (hresC : resC.vol = vol) (hothC : othC.vol = vol)
    (hdA : disjointRegions resA.base (cpuAllocSize vol) othA.base (cpuAllocSize vol))
    (hdB : disjointRegions resB.base (cpuAllocSize vol) othB.base (gpuAllocSize vol))
    (hdC : disjointRegions resC.base (gpuAllocSize vol) othC.base (cpuAllocSize vol))
    (hs : s < vol) (hc1 : c1 < NCOL) (hc2 : c2 < NCOL) (hr : r < 2) :
    CpuField.read othA (deepCopyCpuFromCpu resA othA m) s c1 c2 r
        = CpuField.read othA m s c1 c2 r ∧
    GpuField.read othB (deepCopyCpuFromGpuLayout nThreads resB othB m) s c1 c2 r
        = GpuField.read othB m s c1 c2 r ∧
    CpuField.read othC (deepCopyGpuLayoutFromCpu nThreads resC othC m) s c1 c2 r
        = CpuField.read othC m s c1 c2 r := by
  refine ⟨?_, ?_, ?_⟩
  · show deepCopyCpuFromCpu resA othA m (othA.base + cpuIndex s c1 c2 r)
        = m (othA.base + cpuIndex s c1 c2 r)
    rw [deepCopyCpuFromCpu]
    apply copyLoop_frame
    intro i hi
    obtain ⟨t, a, b, c⟩ := i
    rw [mem_siteColDom] at hi
    exact disjointRegions_ne hdA
      (cpuIndex_lt vol t a b c (hresA ▸ hi.1) hi.2.1 hi.2.2.1 hi.2.2.2)
      (cpuIndex_lt vol s c1 c2 r hs hc1 hc2 hr)
  · show deepCopyCpuFromGpuLayout nThreads resB othB m
        (othB.base + gpuIndex othB.vol s c1 c2 r)
        = m (othB.base + gpuIndex othB.vol s c1 c2 r)
    rw [deepCopyCpuFromGpuLayout, hothB]
    apply copyLoop_frame
    intro i hi
    obtain ⟨t, a, b, c⟩ := i
    simp only [List.mem_product] at hi
    rw [mem_colDom] at hi
    have ht : t < vol := mem_loopSplitIndices_lt hi.1
    exact disjointRegions_ne hdB
      (cpuIndex_lt vol t a b c ht hi.2.1 hi.2.2.1 hi.2.2.2)
      (gpuIndex_lt vol s c1 c2 r hs hc1 hc2 hr)
  · show deepCopyGpuLayoutFromCpu nThreads resC othC m
        (othC.base + cpuIndex s c1 c2 r)
        = m (othC.base + cpuIndex s c1 c2 r)
    rw [deepCopyGpuLayoutFromCpu, hresC, hothC]
    apply copyLoop_frame
    intro i hi
    obtain ⟨t, a, b, c⟩ := i
    simp only [List.mem_product] at hi
    rw [mem_colDom] at hi
    have ht : t < vol := mem_loopSplitIndices_lt hi.1
    exact disjointRegions_ne hdC
      (gpuIndex_lt vol t a b c ht hi.2.1 hi.2.2.1 hi.2.2.2)
      (cpuIndex_lt vol s c1 c2 r hs hc1 hc2 hr)

/-- A worker step that does not cross the parked threshold keeps the
parked count. -/
theorem parkedCount_update_congr {N t k : Nat} (wpc : Nat → Nat)
    (h : (2 ≤ k) = (2 ≤ wpc t)) :
    parkedCount N (Function.update wpc t k) = parkedCount N wpc := by
  unfold parkedCount
  apply congrArg Finset.card
  apply Finset.ext
  intro u
  simp only [Finset.mem_filter]
  by_cases hu : u = t
  · subst hu
    rw [Function.update_same, h]
  · rw [Function.update_noteq hu]

/-- A worker crossing the parked threshold raises the parked count by
one. -/
theorem parkedCount_update_enter {N t : Nat} (wpc : Nat → Nat)
    (ht1 : 1 ≤ t) (ht2 : t < N) (hold : wpc t = 1) :
    parkedCount N (Function.update wpc t 2) = parkedCount N wpc + 1 := by
  unfold parkedCount
  have hins : (Finset.Ico 1 N).filter (fun u => 2 ≤ Function.update wpc t 2 u)
      = insert t ((Finset.Ico 1 N).filter (fun u => 2 ≤ wpc u)) := by
    apply Finset.ext
    intro u
    simp only [Finset.mem_filter, Finset.mem_insert, Finset.mem_Ico]
    by_cases hu : u = t
    · subst hu
      rw [Function.update_same]
      simp [ht1, ht2]
    · rw [Function.update_noteq hu]
      simp [hu]
  rw [hins, Finset.card_insert_of_not_mem]
  simp only [Finset.mem_filter, Finset.mem_Ico, hold]
  omega

/-- If the parked count has reached `N-1`, every worker of `[1, N)` is
parked. -/
theorem parked_all (N : Nat) (wpc : Nat → Nat) (h : parkedCount N wpc = N - 1) :
    ∀ t, 1 ≤ t → t < N → 2 ≤ wpc t := by
  have hIco : (Finset.Ico 1 N).card = N - 1 := Nat.card_Ico 1 N
  have heq : (Finset.Ico 1 N).filter (fun t => 2 ≤ wpc t) = Finset.Ico 1 N :=
    Finset.eq_of_subset_of_card_le (Finset.filter_subset _ _)
      (by unfold parkedCount at h; omega)
  intro t h1 h2
  have hmem : t ∈ (Finset.Ico 1 N).filter (fun t => 2 ≤ wpc t) := by
    rw [heq]
    exact Finset.mem_Ico.mpr ⟨h1, h2⟩
  exact (Finset.mem_filter.mp hmem).2

/-- The invariant holds at the start of the cycle. -/
theorem poolInv_init {W : Type} (N : Nat) (f w0 : W) (s0 : Nat) :
    PoolInv N f w0 s0 (initConfig w0 s0) := by
  refine ⟨rfl, rfl, ?_, ?_, ?_, ?_, rfl, ?_⟩ <;>
    simp [initConfig, parkedCount]

/-- The invariant is preserved by every protocol step. -/
theorem poolInv_step {W : Type} {N : Nat} {f w0 : W} {s0 : Nat} {c c' : PoolConfig W}
    (hstep : PoolStep N f c c') (hinv : PoolInv N f w0 s0 c) :
    PoolInv N f w0 s0 c' := by
  obtain ⟨iWork, iWorks, iParked, iPrev, iRun, iWait, iEx0, iExT⟩ := hinv
  cases hstep with
  | masterWait h0 hw =>
    have hall : ∀ t, 1 ≤ t → t < N → 2 ≤ c.wpc t :=
      parked_all N c.wpc ((iWait h0).symm.trans hw)
    simp only [PoolInv]
    refine ⟨by simp [iWork, h0], by simp [iWorks, h0], fun _ => hall, iPrev,
      ?_, ?_, by simp [iEx0, h0], iExT⟩
    · intro t h1 h2 h3
      have h4 := iRun t h1 h2 h3
      omega
    · intro h
      exact absurd h (by omega)
  | masterInstall h0 =>
    simp only [PoolInv]
    refine ⟨by simp, by simp [iWorks, h0], fun _ => iParked (by omega), iPrev,
      ?_, ?_, by simp [iEx0, h0], iExT⟩
    · intro t h1 h2 h3
      have h4 := iRun t h1 h2 h3
      omega
    · intro h
      exact absurd h (by omega)
  | masterResetWaiting h0 =>
    simp only [PoolInv]
    refine ⟨by simp [iWork, h0], by simp [iWorks, h0], fun _ => iParked (by omega), iPrev,
      ?_, ?_, by simp [iEx0, h0], iExT⟩
    · intro t h1 h2 h3
      have h4 := iRun t h1 h2 h3
      omega
    · intro h
      exact absurd h (by omega)
  | masterBumpWorks h0 =>
    simp only [PoolInv]
    refine ⟨by simp [iWork, h0], by simp [iWorks, h0], fun _ => iParked (by omega), iPrev,
      fun t h1 h2 h3 => by omega, ?_, by simp [iEx0, h0], iExT⟩
    intro h
    exact absurd h (by omega)
  | masterRun h0 =>
    have hwf : c.work = f := by rw [iWork, h0]; simp
    simp only [PoolInv]
    refine ⟨by simp [iWork, h0], by simp [iWorks, h0], fun _ => iParked (by omega), iPrev,
      fun t h1 h2 h3 => by omega, ?_, ?_, ?_⟩
    · intro h
      exact absurd h (by omega)
    · rw [Function.update_same]
      simp [hwf]
    · intro t h1 h2
      rw [Function.update_noteq (by omega : t ≠ 0)]
      exact iExT t h1 h2
  | workerReadPrev t ht1 ht2 h0 =>
    have hcpc : c.cpc = 0 := by
      by_contra hne
      have h2 := iParked (by omega) t ht1 ht2
      omega
    have hW : c.nWorks = s0 := by rw [iWorks, if_neg (by omega)]
    simp only [PoolInv]
    refine ⟨iWork, iWorks, fun h => absurd hcpc (by omega), ?_, ?_, ?_, iEx0, ?_⟩
    · intro u h1 h2 hu
      by_cases hut : u = t
      · rw [hut, Function.update_same, hW]
      · rw [Function.update_noteq hut] at hu ⊢
        exact iPrev u h1 h2 hu
    · intro u h1 h2 hu
      by_cases hut : u = t
      · rw [hut, Function.update_same] at hu
        omega
      · rw [Function.update_noteq hut] at hu
        exact iRun u h1 h2 hu
    · intro h
      rw [iWait h]
      exact (parkedCount_update_congr c.wpc (by simp [h0])).symm
    · intro u h1 h2
      by_cases hut : u = t
      · rw [hut] at h1 h2 ⊢
        simp only [Function.update_same]
        have h := iExT t h1 h2
        rw [h0] at h
        simpa using h
      · simp only [Function.update_noteq hut]
        exact iExT u h1 h2
  | workerEnterWait t ht1 ht2 h0 =>
    have hcpc : c.cpc = 0 := by
      by_contra hne
      have h2 := iParked (by omega) t ht1 ht2
      omega
    simp only [PoolInv]
    refine ⟨iWork, iWorks, fun h => absurd hcpc (by omega), ?_, ?_, ?_, iEx0, ?_⟩
    · intro u h1 h2 hu
      by_cases hut : u = t
      · rw [hut] at h1 h2 ⊢
        exact iPrev t h1 h2 (by omega)
      · rw [Function.update_noteq hut] at hu
        exact iPrev u h1 h2 hu
    · intro u h1 h2 hu
      by_cases hut : u = t
      · rw [hut, Function.update_same] at hu
        omega
      · rw [Function.update_noteq hut] at hu
        exact iRun u h1 h2 hu
    · intro h
      rw [iWait hcpc, parkedCount_update_enter c.wpc ht1 ht2 h0]
    · intro u h1 h2
      by_cases hut : u = t
      · rw [hut] at h1 h2 ⊢
        simp only [Function.update_same]
        have h := iExT t h1 h2
        rw [h0] at h
        simpa using h
      · simp only [Function.update_noteq hut]
        exact iExT u h1 h2
  | workerSeeNewWork t ht1 ht2 h0 hne =>
    have hcpc4 : 4 ≤ c.cpc := by
      by_contra hlt
      have hp : c.prev t = s0 := iPrev t ht1 ht2 (by omega)
      rw [if_neg hlt] at iWorks
      exact hne (iWorks.trans hp.symm)
    simp only [PoolInv]
    refine ⟨iWork, iWorks, ?_, ?_, fun u h1 h2 _ => hcpc4,
      fun h => absurd h (by omega), iEx0, ?_⟩
    · intro h u h1 h2
      by_cases hut : u = t
      · rw [hut, Function.update_same]
        omega
      · rw [Function.update_noteq hut]
        exact iParked h u h1 h2
    · intro u h1 h2 hu
      by_cases hut : u = t
      · rw [hut] at h1 h2 ⊢
        exact iPrev t h1 h2 (by omega)
      · rw [Function.update_noteq hut] at hu
        exact iPrev u h1 h2 hu
    · intro u h1 h2
      by_cases hut : u = t
      · rw [hut] at h1 h2 ⊢
        simp only [Function.update_same]
        have h := iExT t h1 h2
        rw [h0] at h
        simpa using h
      · simp only [Function.update_noteq hut]
        exact iExT u h1 h2
  | workerRun t ht1 ht2 h0 =>
    have hcpc4 : 4 ≤ c.cpc := iRun t ht1 ht2 (by omega)
    have hwf : c.work = f := by rw [iWork, if_pos (by omega : 2 ≤ c.cpc)]
    simp only [PoolInv]
    refine ⟨iWork, iWorks, ?_, ?_, fun u h1 h2 _ => hcpc4,
      fun h => absurd h (by omega), ?_, ?_⟩
    · intro h u h1 h2
      by_cases hut : u = t
      · rw [hut, Function.update_same]
        omega
      · rw [Function.update_noteq hut]
        exact iParked h u h1 h2
    · intro u h1 h2 hu
      by_cases hut : u = t
      · rw [hut] at h1 h2 ⊢
        exact iPrev t h1 h2 (by omega)
      · rw [Function.update_noteq hut] at hu
        exact iPrev u h1 h2 hu
    · rw [Function.update_noteq (by omega : (0 : Nat) ≠ t)]
      exact iEx0
    · intro u h1 h2
      by_cases hut : u = t
      · rw [hut]
        simp only [Function.update_same, hwf]
        simp
      · simp only [Function.update_noteq hut]
        exact iExT u h1 h2

/-- The invariant holds in every reachable configuration. -/
theorem poolInv_of_reach {W : Type} {N : Nat} {f w0 : W} {s0 : Nat} {c : PoolConfig W}
    (hreach : PoolReach N f w0 s0 c) : PoolInv N f w0 s0 c := by
  induction hreach with
  | refl => exact poolInv_init N f w0 s0
  | tail _ hstep ih => exact poolInv_step hstep ih

/-- C5: in every reachable configuration of a dispatch cycle the
controller's state changes happen in the order of the source: the Work
Item flips to `f` exactly once the controller has passed the install
step (and never before), the work-sequence counter is incremented by
exactly one exactly once the controller has passed its store (and
never before), the controller cannot have passed its busy-wait before
every worker's idle-increment has happened, its own execution record
(`workerId = 0`) is filled — with `f` — exactly when it has run its
own chunk; and once the cycle is complete (controller done and all
workers done) every one of the `N` threads, the controller as thread
`0` included, has executed `f` exactly once. -/
theorem pool_handoff_protocol {W : Type} (N : Nat) (f w0 : W) (s0 : Nat)
    (c : PoolConfig W) (hreach : PoolReach N f w0 s0 c) :
    (c.work = if 2 ≤ c.cpc then f else w0) ∧
    (c.nWorks = if 4 ≤ c.cpc then s0 + 1 else s0) ∧
    (1 ≤ c.cpc → ∀ t, 1 ≤ t → t < N → 2 ≤ c.wpc t) ∧
    (c.execBy 0 = if c.cpc = 5 then some f else none) ∧
    (∀ t, 1 ≤ t → t < N → c.execBy t = if c.wpc t = 4 then some f else none) ∧
    (c.cpc = 5 → (∀ t, 1 ≤ t → t < N → c.wpc t = 4) →
      ∀ t, t < N → c.execBy t = some f) := by
  obtain ⟨iWork, iWorks, iParked, iPrev, iRun, iWait, iEx0, iExT⟩ := poolInv_of_reach hreach
  refine ⟨iWork, iWorks, iParked, iEx0, iExT, ?_⟩
  intro h5 hdone t ht
  by_cases ht0 : t = 0
  · rw [ht0, iEx0, if_pos h5]
  · have h1 : 1 ≤ t := by omega
    rw [iExT t h1 ht, if_pos (hdone t h1 ht)]

/-- Witness for C5: an explicit complete interleaving with `N = 2`,
`f = true`, previous work item `false`: both the controller and the
worker end up having executed `f` once. -/
theorem pool_handoff_protocol_witness :
    handoffFinal.execBy 0 = some true ∧ handoffFinal.execBy 1 = some true := by
  have hreach : PoolReach 2 true false 0 handoffFinal := by
    have r0 : PoolReach 2 true false 0 (initConfig false 0) := Relation.ReflTransGen.refl
    have r1 := r0.tail (PoolStep.workerReadPrev 1 (by decide) (by decide) (by decide))
    have r2 := r1.tail (PoolStep.workerEnterWait 1 (by decide) (by decide) (by decide))
    have r3 := r2.tail (PoolStep.masterWait (by decide) (by decide))
    have r4 := r3.tail (PoolStep.masterInstall (by decide))
    have r5 := r4.tail (PoolStep.masterResetWaiting (by decide))
    have r6 := r5.tail (PoolStep.masterBumpWorks (by decide))
    have r7 := r6.tail (PoolStep.masterRun (by decide))
    have r8 := r7.tail
      (PoolStep.workerSeeNewWork 1 (by decide) (by decide) (by decide) (by decide))
    have r9 := r8.tail (PoolStep.workerRun 1 (by decide) (by decide) (by decide))
    exact r9
  have h := pool_handoff_protocol 2 true false 0 handoffFinal hreach
  have hdone : ∀ t, 1 ≤ t → t < 2 → handoffFinal.wpc t = 4 := by
    intro t h1 h2
    have ht : t = 1 := by omega
    subst ht
    decide
  have hall := h.2.2.2.2.2 rfl hdone
  exact ⟨hall 0 (by decide), hall 1 (by decide)⟩

/-- Witness for C9: volume 1, two buffers at bases 0 and 100. -/
theorem deepCopy_source_unchanged_witness :
    (0 < 1 ∧ 0 < NCOL ∧ 0 < 2) ∧
    CpuField.read ⟨1, 100⟩ (deepCopyCpuFromCpu ⟨1, 0⟩ ⟨1, 100⟩ (fun a => a)) 0 0 0 0
      = CpuField.read ⟨1, 100⟩ (fun a => a) 0 0 0 0 :=
  ⟨by decide,
    (deepCopy_source_unchanged 1 1 ⟨1, 0⟩ ⟨1, 100⟩ ⟨1, 0⟩ ⟨1, 100⟩ ⟨1, 0⟩ ⟨1, 100⟩
      (fun a => a) 0 0 0 0 rfl rfl rfl rfl rfl
      (Or.inl (by decide)) (Or.inl (by decide)) (Or.inl (by decide))
      (by decide) (by decide) (by decide) (by decide)).1⟩

end Ciccios
